import Mathlib

/-!
Verification of the `optimalbinning` package (`binning.py`).

The embedding models Python floats as exact rationals (`ℚ`): the claims under
study are about control flow, counts, recorded lists and raised errors, none of
which depend on binary floating-point rounding.  The sentinel values
`numpy.NINF` / `numpy.PINF` that can appear in boundary arrays and in the
running `optimal_criterion` field are modelled by the extended-rational type
`XQ`.  Python exceptions are modelled by an explicit error type: a call that
raises in Python returns the corresponding `PyError` here, together with the
(mutated) object state, because `Binning` methods mutate `self` before some of
the raise sites.
-/

/-- Extended rationals: `numpy.NINF`, a finite value, `numpy.PINF`. -/
inductive XQ
  | ninf
  | fin (q : ℚ)
  | pinf
deriving DecidableEq, Repr

/-- The Python exceptions that the embedded code can raise.
`valueErrorEmpty` and `valueErrorDegenerate` are the two `ValueError`s of
`optimal_binning` (lines 129 and 221); `attributeError` is raised by the call
`numpy.len(data)` on line 80 (`numpy` has no attribute `len`);
`indexError` is raised by out-of-range list/array indexing;
`mathDomainError` stands for `math.log10` applied to a non-positive number
(or the related division failure when a resolved bound is non-positive).
`fuelExhausted` is an artifact of the embedding: the `while` loop of
`optimal_binning` is run on an explicit iteration budget that is always chosen
large enough for the geometric width progression to pass `max_bin_width`. -/
inductive PyError
  | valueErrorEmpty
  | valueErrorDegenerate
  | attributeError
  | indexError
  | mathDomainError
  | fuelExhausted
deriving DecidableEq, Repr

/-- One row of the `bin_details` dataframe built by `bin_frequency`:
columns `LOWER_CLOSE`, `UPPER_OPEN`, `FREQUENCY` (frequency is a numpy float). -/
structure BinRow where
  lower : XQ
  upper : XQ
  freq : ℚ
deriving DecidableEq, Repr

/-- `u < b` for a finite data value `u` against a boundary entry `b`
(the comparison on line 72 of the source). -/
def XQ.qlt (u : ℚ) : XQ → Bool
  | .ninf => false
  | .fin q => decide (u < q)
  | .pinf => true

/-- Comparison `v < lowest` of line 213, where `lowest` starts at `numpy.PINF`. -/
def XQ.ltq (v : ℚ) : XQ → Bool
  | .ninf => false
  | .fin q => decide (v < q)
  | .pinf => true

/-- Zip the three columns of `bin_details` into rows (truncating like `zip`;
the three arrays always have equal length `n_bin`). -/
def zip3 : List XQ → List XQ → List ℚ → List BinRow
  | l :: ls, u :: us, f :: fs => ⟨l, u, f⟩ :: zip3 ls us fs
  | _, _, _ => []

/-- Increment entry `i` of a frequency vector by one
(`bin_frequency[i] = bin_frequency[i] + 1.0`). -/
def bump : List ℚ → ℕ → List ℚ
  | [], _ => []
  | x :: xs, 0 => (x + 1) :: xs
  | x :: xs, n + 1 => x :: bump xs n

/-- Index of the first entry `b` of `tail` with `u < b`
(the inner `for i in range(n_bin-1)` scan of lines 71-75;
`tail = bin_lower_boundary[1:]`). -/
def firstLt (u : ℚ) : List XQ → Option ℕ
  | [] => none
  | b :: bs => if XQ.qlt u b then some 0 else (firstLt u bs).map Nat.succ

/-- The bin index a data value `u` is assigned to: the first `i` with
`u < bin_lower_boundary[i+1]`, else the last bin `n_bin - 1` (lines 69-77). -/
def assignIdx (u : ℚ) (tail : List XQ) (n_bin : ℕ) : ℕ :=
  (firstLt u tail).getD (n_bin - 1)

/-- `Binning.bin_frequency` (lines 41-86).  The bins are left-closed,
right-opened intervals.  Faithfulness notes:
* `n_bin = 0`: line 62 assigns index `-1` of an empty numpy array, which
  raises `IndexError`;
* `n_bin = 1`: line 80 evaluates `numpy.len(data)`; `numpy` has no attribute
  `len`, so Python raises `AttributeError` before any dataframe is built;
* `n_bin ≥ 2`: the upper boundaries are `bin_lower_boundary[1:]` followed by
  `numpy.PINF`, and each value is counted by the linear scan `assignIdx`. -/
def bin_frequency (data : List ℚ) (bin_lower_boundary : List XQ) :
    Except PyError (List BinRow) :=
  let n_bin := bin_lower_boundary.length
  if n_bin = 0 then .error .indexError
  else
    let bin_upper_boundary := bin_lower_boundary.tail ++ [XQ.pinf]
    if 2 ≤ n_bin then
      let freqs := data.foldl
        (fun fs u => bump fs (assignIdx u bin_lower_boundary.tail n_bin))
        (List.replicate n_bin 0)
      .ok (zip3 bin_lower_boundary bin_upper_boundary freqs)
    else .error .attributeError

/-- Floor of `log10 n`, for `n ≥ 1`, by repeated division (the fuel argument
`n` itself bounds the number of decimal digits). -/
def natLog10Aux : ℕ → ℕ → ℕ
  | 0, _ => 0
  | fuel + 1, n => if n < 10 then 0 else natLog10Aux fuel (n / 10) + 1

/-- Floor of `log10 n` for `n ≥ 1`. -/
def natLog10 (n : ℕ) : ℕ := natLog10Aux n n

/-- Least `e` with `n ≤ 10 ^ e`, for `n ≥ 1`. -/
def natClog10 (n : ℕ) : ℕ := if n ≤ 1 then 0 else natLog10 (n - 1) + 1

/-- `math.floor(math.log10 q)` on exact rationals, for `q > 0`
(junk value for `q ≤ 0`, which is guarded by `mathDomainError` at each
use site). -/
def floorLog10 (q : ℚ) : ℤ :=
  if 1 ≤ q then (natLog10 ⌊q⌋.toNat : ℤ) else -(natClog10 ⌈q⁻¹⌉.toNat : ℤ)

/-- `math.ceil(math.log10 q)` on exact rationals, for `q > 0`. -/
def ceilLog10 (q : ℚ) : ℤ :=
  if 1 ≤ q then (natClog10 ⌈q⌉.toNat : ℤ) else -(natLog10 ⌊q⁻¹⌋.toNat : ℤ)

/-- `math.pow(10.0, e)` for the integer exponents produced by the two
log functions. -/
def pow10 (e : ℤ) : ℚ := (10 : ℚ) ^ e

/-- `numpy.round` on a scalar: round half to even. -/
def roundHalfEven (q : ℚ) : ℤ :=
  let f := ⌊q⌋
  let r := q - (f : ℚ)
  if r < 1 / 2 then f
  else if (1 / 2 : ℚ) < r then f + 1
  else if f % 2 = 0 then f else f + 1

/-- The mutable members of a `Binning` instance (lines 29-39).
`min_n_bin` / `max_n_bin` start as `None`; `optimal_criterion` starts as
`numpy.PINF`; `optimal_position` starts as `None`. -/
structure BinningState where
  bin_width_candidate : List ℚ
  list_criterion : List ℚ
  list_n_bin : List ℤ
  list_bin_boundary : List (List BinRow)
  max_n_bin : Option ℚ
  min_n_bin : Option ℚ
  optimal_criterion : XQ
  optimal_position : Option ℕ
deriving DecidableEq, Repr

/-- A fresh `Binning` instance. -/
def initState : BinningState :=
  { bin_width_candidate := []
    list_criterion := []
    list_n_bin := []
    list_bin_boundary := []
    max_n_bin := none
    min_n_bin := none
    optimal_criterion := .pinf
    optimal_position := none }

/-- One pass over the data (lines 112-123): running count, running sum (the
code divides by the count afterwards to get the mean), running min and max.
The `numpy.NINF` / `numpy.PINF` seeds of the min/max accumulators are
rendered as `none`: the first comparison `u > NINF` (`u < PINF`) always
succeeds, so `none` behaves exactly like the infinite seed. -/
def summarize (data : List ℚ) : ℚ × ℚ × Option ℚ × Option ℚ :=
  data.foldl
    (fun acc u =>
      (acc.1 + 1, acc.2.1 + u,
        some (match acc.2.2.1 with
          | none => u
          | some a => if u < a then u else a),
        some (match acc.2.2.2 with
          | none => u
          | some b => if u > b then u else b)))
    (0, 0, none, none)

/-- Advance the candidate bin width and the cyclic step counter
(lines 196-205): multiply by `1.25` when `sequence == 1`, otherwise by `2.0`;
then increment `sequence` modulo 4. -/
def stepWS (p : ℚ × ℕ) : ℚ × ℕ :=
  let bw := if p.2 = 1 then (1.25 : ℚ) * p.1 else 2 * p.1
  let s := p.2 + 1
  (bw, if s = 4 then 0 else s)

/-- `bin_lower_boundary` for one candidate (lines 173-179): entry 0 is
`numpy.NINF`; entries `1 .. n_bin-1` are `low_x + bin_width * k` for
`k = 0 .. n_bin-2`.  The three source branches (`n_bin > 2`, `n_bin == 2`,
`n_bin == 1` with no interior entry) are all instances of this formula. -/
def mkLowerBoundary (n_bin : ℕ) (low_x bin_width : ℚ) : List XQ :=
  if n_bin = 0 then []
  else XQ.ninf ::
    (List.range (n_bin - 1)).map (fun (k : ℕ) => XQ.fin (low_x + bin_width * (k : ℚ)))

/-- The per-run constants of the sweep loop. -/
structure SweepCtx where
  data : List ℚ
  nx : ℚ
  meanx : ℚ
  mnx : ℚ
  mxx : ℚ
  minNB : ℚ
  maxNB : ℚ
  max_bin_width : ℚ
deriving DecidableEq, Repr

/-- The growing per-candidate lists (the four `self.list_*` members plus the
local `n_candidates` counter). -/
structure SweepAcc where
  bwc : List ℚ
  crits : List ℚ
  nbins : List ℤ
  layouts : List (List BinRow)
  ncand : ℕ
deriving DecidableEq, Repr

/-- The `while bin_width <= max_bin_width` loop of lines 159-205.  Each
iteration builds the mean-aligned boundaries, and — when the resulting
`n_bin` lies in `[min_n_bin, max_n_bin]` — computes the frequencies and the
Shimazaki-Shinomoto criterion and appends one candidate to each list.
An exception from `bin_frequency` aborts the loop, keeping the lists
appended so far (they live on `self`).  The `fuel` argument is the
embedding's iteration budget (see `PyError.fuelExhausted`). -/
def sweepLoop (ctx : SweepCtx) : ℕ → ℚ → ℕ → SweepAcc → SweepAcc × Option PyError
  | 0, _, _, acc => (acc, some .fuelExhausted)
  | fuel + 1, bin_width, sequence, acc =>
    if bin_width ≤ ctx.max_bin_width then
      let middle_x := bin_width * (roundHalfEven (ctx.meanx / bin_width) : ℚ)
      let n_bin_left : ℤ := ⌈(middle_x - ctx.mnx) / bin_width⌉
      let n_bin_right : ℤ := ⌈(ctx.mxx - middle_x) / bin_width⌉
      let n_bin : ℤ := n_bin_left + n_bin_right
      let next := stepWS (bin_width, sequence)
      if ctx.minNB ≤ (n_bin : ℚ) ∧ (n_bin : ℚ) ≤ ctx.maxNB then
        let low_x := middle_x - ((n_bin_left : ℚ) - 1) * bin_width
        match bin_frequency ctx.data (mkLowerBoundary n_bin.toNat low_x bin_width) with
        | .error e => (acc, some e)
        | .ok bin_details =>
          let mean_bin_freq := ctx.nx / (n_bin : ℚ)
          let var_bin_freq :=
            ((bin_details.map (fun r => (r.freq - mean_bin_freq) ^ 2)).sum) / (n_bin : ℚ)
          let criterion := (2 * mean_bin_freq - var_bin_freq) / bin_width / bin_width
          sweepLoop ctx fuel next.1 next.2
            { bwc := acc.bwc ++ [bin_width]
              crits := acc.crits ++ [criterion]
              nbins := acc.nbins ++ [n_bin]
              layouts := acc.layouts ++ [bin_details]
              ncand := acc.ncand + 1 }
      else sweepLoop ctx fuel next.1 next.2 acc
    else (acc, none)

/-- The selection scan of lines 207-215: running lowest criterion (seeded
with `numpy.PINF`) and its position, advancing over the criterion list in
order with a strict `<` update. -/
def scanLowestAux : List ℚ → XQ → Option ℕ → ℕ → XQ × Option ℕ
  | [], lowest, pos, _ => (lowest, pos)
  | v :: vs, lowest, pos, i =>
    if XQ.ltq v lowest then scanLowestAux vs (.fin v) (some i) (i + 1)
    else scanLowestAux vs lowest pos (i + 1)

/-- Lowest criterion and its (first) position. -/
def scanLowest (l : List ℚ) : XQ × Option ℕ := scanLowestAux l .pinf none 0

/-- Lines 153-219 of `optimal_binning`: reset the candidate lists, run the
sweep from the starting width `w0`, store the (possibly partial) lists on the
instance, propagate a sweep exception, and otherwise run the selection scan,
updating the optimum fields only when the scan found a candidate. -/
def sweepAndSelect (st1 : BinningState) (ctx : SweepCtx) (fuel : ℕ) (w0 : ℚ) :
    BinningState × Except PyError ℕ :=
  let swept := sweepLoop ctx fuel w0 0 ⟨[], [], [], [], 0⟩
  let st3 := { st1 with
    bin_width_candidate := swept.1.bwc
    list_criterion := swept.1.crits
    list_n_bin := swept.1.nbins
    list_bin_boundary := swept.1.layouts }
  match swept.2 with
  | some e => (st3, .error e)
  | none =>
    let scan := scanLowest st3.list_criterion
    match scan.2 with
    | some p =>
      ({ st3 with optimal_criterion := scan.1, optimal_position := some p },
        .ok swept.1.ncand)
    | none => (st3, .ok swept.1.ncand)

/-- `Binning.optimal_binning` (lines 88-223).  The method mutates `self`, so
it returns the updated state together with either the returned
`n_candidates` or the raised exception.  Faithfulness notes:
* lines 117-129: the summary pass; `_n_x > 0` holds exactly when the data is
  non-empty, i.e. exactly when the min/max accumulators were updated;
* lines 131-140: defaults `min_n_bin = 2` and `max_n_bin = _n_x // 2`
  (float floor division);
* lines 142-145: when `max_n_bin < min_n_bin`, the code saves `max_n_bin`
  in `u`, overwrites `max_n_bin` with `min_n_bin`, then overwrites
  `max_n_bin` with `u` again — `min_n_bin` is never assigned, so the
  attempted swap is a no-op (rendered literally below);
* lines 150-151: `math.log10` needs a positive argument, so a non-positive
  resolved bound raises before the candidate lists are cleared;
* lines 153-157: the four candidate lists are reset before the sweep;
* lines 207-219: the selection scan updates `optimal_criterion` and
  `optimal_position` only when at least one candidate was recorded. -/
def optimal_binning (st : BinningState) (data : List ℚ)
    (min_n_bin max_n_bin : Option ℚ) : BinningState × Except PyError ℕ :=
  match summarize data with
  | (nx, sx, some min_x, some max_x) =>
    let mean_x := sx / nx
    let range_x := max_x - min_x
    let minNB : ℚ := min_n_bin.getD 2
    let maxNB0 : ℚ := max_n_bin.getD ((⌊nx / 2⌋ : ℤ) : ℚ)
    let maxNB : ℚ :=
      if maxNB0 < minNB then
        let u := maxNB0
        let _overwritten := minNB   -- self.max_n_bin = self.min_n_bin (line 144)
        u                           -- self.max_n_bin = u              (line 145)
      else maxNB0
    let st1 := { st with min_n_bin := some minNB, max_n_bin := some maxNB }
    if 0 < range_x then
      if minNB ≤ 0 ∨ maxNB ≤ 0 then (st1, .error .mathDomainError)
      else
        let a := floorLog10 (range_x / maxNB)
        let b := ceilLog10 (range_x / minNB)
        sweepAndSelect st1
          ⟨data, nx, mean_x, min_x, max_x, minNB, maxNB, pow10 b⟩
          ((4 * (b - a) + 2).toNat + 8)
          (pow10 a)
    else (st1, .error .valueErrorDegenerate)
  | _ => (st, .error .valueErrorEmpty)

/-- `Binning.get_optimal_boundary` (lines 245-263): the layout at
`optimal_position`, `None` when no optimum was ever set; indexing past the
end of `list_bin_boundary` raises `IndexError`. -/
def get_optimal_boundary (st : BinningState) : Except PyError (Option (List BinRow)) :=
  match st.optimal_position with
  | some p =>
    match st.list_bin_boundary[p]? with
    | some b => .ok (some b)
    | none => .error .indexError
  | none => .ok none

/-- `Binning.get_optimal_nbin` (lines 265-282): the bin count at
`optimal_position`, `0` when no optimum was ever set. -/
def get_optimal_nbin (st : BinningState) : Except PyError ℤ :=
  match st.optimal_position with
  | some p =>
    match st.list_n_bin[p]? with
    | some k => .ok k
    | none => .error .indexError
  | none => .ok 0

/-- `Binning.get_optimal_width` (lines 284-301): the width at
`optimal_position`, `None` when no optimum was ever set. -/
def get_optimal_width (st : BinningState) : Except PyError (Option ℚ) :=
  match st.optimal_position with
  | some p =>
    match st.bin_width_candidate[p]? with
    | some w => .ok (some w)
    | none => .error .indexError
  | none => .ok none

lemma bump_length (l : List ℚ) (i : ℕ) : (bump l i).length = l.length := by
  induction l generalizing i with
  | nil => rfl
  | cons x xs ih => cases i with
    | zero => rfl
    | succ j => simpa [bump] using ih j

lemma bump_sum (l : List ℚ) (i : ℕ) (h : i < l.length) :
    (bump l i).sum = l.sum + 1 := by
  induction l generalizing i with
  | nil => simp at h
  | cons x xs ih =>
    cases i with
    | zero => simp [bump]; ring
    | succ j =>
      have hj : j < xs.length := by simpa using h
      simp [bump, ih j hj]; ring

lemma firstLt_lt_length (u : ℚ) (l : List XQ) (i : ℕ) (h : firstLt u l = some i) :
    i < l.length := by
  induction l generalizing i with
  | nil => simp [firstLt] at h
  | cons b bs ih =>
    by_cases hb : XQ.qlt u b
    · simp [firstLt, hb] at h
      simp only [List.length_cons]
      omega
    · simp [firstLt, hb] at h
      obtain ⟨j, hj, rfl⟩ := h
      have := ih j hj
      simpa using Nat.succ_lt_succ this

lemma assignIdx_lt (u : ℚ) (tail : List XQ) (n : ℕ) (hn : 0 < n)
    (ht : tail.length = n - 1) : assignIdx u tail n < n := by
  unfold assignIdx
  cases h : firstLt u tail with
  | none => simp; omega
  | some i =>
    have := firstLt_lt_length u tail i h
    simp; omega

lemma foldBump (tail : List XQ) (n : ℕ) (hn : 0 < n) (ht : tail.length = n - 1) :
    ∀ (data : List ℚ) (fs : List ℚ), fs.length = n →
      (data.foldl (fun fs u => bump fs (assignIdx u tail n)) fs).sum
          = fs.sum + data.length ∧
      (data.foldl (fun fs u => bump fs (assignIdx u tail n)) fs).length = n := by
  intro data
  induction data with
  | nil => intro fs hfs; simp [hfs]
  | cons d ds ih =>
    intro fs hfs
    have hidx : assignIdx d tail n < n := assignIdx_lt d tail n hn ht
    have hlen : (bump fs (assignIdx d tail n)).length = n := by
      rw [bump_length]; exact hfs
    have hsum : (bump fs (assignIdx d tail n)).sum = fs.sum + 1 :=
      bump_sum fs _ (by omega)
    obtain ⟨ih1, ih2⟩ := ih (bump fs (assignIdx d tail n)) hlen
    constructor
    · simp only [List.foldl_cons, ih1, hsum, List.length_cons]
      push_cast
      ring
    · simpa using ih2

lemma zip3_map_freq : ∀ (ls us : List XQ) (fs : List ℚ),
    ls.length = fs.length → us.length = fs.length →
    (zip3 ls us fs).map BinRow.freq = fs := by
  intro ls
  induction ls with
  | nil => intro us fs h1 _; cases fs with
    | nil => cases us <;> rfl
    | cons f fs => simp at h1
  | cons l ls ih =>
    intro us fs h1 h2
    cases fs with
    | nil => simp at h1
    | cons f fs =>
      cases us with
      | nil => simp at h2
      | cons u us =>
        simp only [zip3, List.map_cons]
        rw [ih us fs (by simpa using h1) (by simpa using h2)]

lemma zip3_length : ∀ (ls us : List XQ) (fs : List ℚ),
    ls.length = fs.length → us.length = fs.length →
    (zip3 ls us fs).length = fs.length := by
  intro ls us fs h1 h2
  rw [← List.length_map (zip3 ls us fs) BinRow.freq, zip3_map_freq ls us fs h1 h2]

/-- Shared workhorse for C4 and C10: with at least two boundaries,
`bin_frequency` succeeds, its row count equals the boundary count, and the
frequencies sum to the sample size. -/
lemma bin_frequency_ok (data : List ℚ) (blb : List XQ) (h2 : 2 ≤ blb.length) :
    ∃ rows, bin_frequency data blb = .ok rows ∧
      (rows.map BinRow.freq).sum = (data.length : ℚ) ∧
      rows.length = blb.length := by
  have hn0 : blb.length ≠ 0 := by omega
  have hn1 : 0 < blb.length := by omega
  have htail : blb.tail.length = blb.length - 1 := by
    cases blb with
    | nil => simp at hn0
    | cons b bs => simp
  obtain ⟨hs, hl⟩ := foldBump blb.tail blb.length hn1 htail data
    (List.replicate blb.length 0) (by simp)
  set fold := data.foldl
    (fun fs u => bump fs (assignIdx u blb.tail blb.length))
    (List.replicate blb.length 0) with hfold
  have hus : (blb.tail ++ [XQ.pinf]).length = fold.length := by
    simp only [List.length_append, List.length_singleton, htail, hl]
    omega
  have hls : blb.length = fold.length := hl.symm
  refine ⟨zip3 blb (blb.tail ++ [XQ.pinf]) fold, ?_, ?_, ?_⟩
  · simp only [bin_frequency, if_neg hn0, if_pos h2, hfold]
  · rw [zip3_map_freq _ _ _ hls hus, hs]
    simp
  · rw [zip3_length _ _ _ hls hus, hl]

/-- Claim C3: for every sample and every boundaries sequence of length
exactly 1, `bin_frequency` does NOT return a one-bin layout: line 80
evaluates `numpy.len(data)`, and `numpy` has no attribute `len`, so the call
raises `AttributeError`.  (The claim's intended behavior — one bin covering
(−∞, +∞) with frequency equal to the sample size — is what the obviously
intended `len(data)` would produce; the code as written cannot produce it.) -/
theorem C3_single_boundary_raises (data : List ℚ) (b : XQ) :
    bin_frequency data [b] = .error .attributeError := rfl

/-- Claim C4, counterexample to the claim as stated: for the non-empty sample
`[1]` and the non-empty boundaries `[−∞]` (length 1), `bin_frequency` raises
`AttributeError` instead of returning a `BinLayout`, so the claim's "every
non-empty boundaries sequence" is too broad. -/
theorem C4_counterexample :
    bin_frequency [(1 : ℚ)] [XQ.ninf] = .error .attributeError ∧
    ∀ rows, bin_frequency [(1 : ℚ)] [XQ.ninf] ≠ .ok rows := by
  constructor
  · rfl
  · intro rows h
    simp [bin_frequency] at h

/-- `bin_frequency` returns a layout only through its `n_bin ≥ 2` branch, so
any returned layout has the frequency-sum and row-count properties. -/
lemma bin_frequency_ok_inv (data : List ℚ) (blb : List XQ) (rows : List BinRow)
    (h : bin_frequency data blb = .ok rows) :
    (rows.map BinRow.freq).sum = (data.length : ℚ) ∧ rows.length = blb.length := by
  have h2 : 2 ≤ blb.length := by
    by_contra hlt
    interval_cases hb : blb.length
    · simp [bin_frequency, hb] at h
    · simp [bin_frequency, hb] at h
  obtain ⟨rows', hok, hsum, hlen⟩ := bin_frequency_ok data blb h2
  rw [hok] at h
  injection h with h
  subst h
  exact ⟨hsum, hlen⟩


/-- Shape of a successful pass through `sweepAndSelect`: the sweep completed
without an exception, the state lists are the sweep lists, and the optimum
fields follow the selection scan. -/
lemma sweepAndSelect_ok (st1 : BinningState) (ctx : SweepCtx) (fuel : ℕ) (w0 : ℚ)
    (s' : BinningState) (n : ℕ) (h : sweepAndSelect st1 ctx fuel w0 = (s', .ok n)) :
    ∃ acc : SweepAcc,
      sweepLoop ctx fuel w0 0 ⟨[], [], [], [], 0⟩ = (acc, none) ∧
      s'.bin_width_candidate = acc.bwc ∧
      s'.list_criterion = acc.crits ∧
      s'.list_n_bin = acc.nbins ∧
      s'.list_bin_boundary = acc.layouts ∧
      s'.min_n_bin = st1.min_n_bin ∧ s'.max_n_bin = st1.max_n_bin ∧
      n = acc.ncand ∧
      (((scanLowest acc.crits).2 = none ∧
          s'.optimal_criterion = st1.optimal_criterion ∧
          s'.optimal_position = st1.optimal_position) ∨
        (∃ p, (scanLowest acc.crits).2 = some p ∧
          s'.optimal_criterion = (scanLowest acc.crits).1 ∧
          s'.optimal_position = some p)) := by
  unfold sweepAndSelect at h
  generalize hswp : sweepLoop ctx fuel w0 0 ⟨[], [], [], [], 0⟩ = swp at h
  obtain ⟨acc, err⟩ := swp
  dsimp only at h
  cases err with
  | some e => simp at h
  | none =>
    rcases hscan : (scanLowest acc.crits).2 with _ | p
    · rw [hscan] at h
      dsimp only at h
      rw [Prod.mk.injEq] at h
      obtain ⟨h1, h2⟩ := h
      injection h2 with h2
      refine ⟨acc, rfl, ?_⟩
      subst h1 h2
      simp [hscan]
    · rw [hscan] at h
      dsimp only at h
      rw [Prod.mk.injEq] at h
      obtain ⟨h1, h2⟩ := h
      injection h2 with h2
      refine ⟨acc, rfl, ?_⟩
      subst h1 h2
      refine ⟨rfl, rfl, rfl, rfl, rfl, rfl, rfl, Or.inr ⟨p, hscan, rfl, rfl⟩⟩


/-- The guard on non-positive resolved bounds. -/
lemma stage2_ok (st1 : BinningState) (minNB maxNB : ℚ) (ctx : SweepCtx)
    (fuel : ℕ) (w0 : ℚ) (s' : BinningState) (n : ℕ)
    (h : (if minNB ≤ 0 ∨ maxNB ≤ 0 then (st1, Except.error PyError.mathDomainError)
          else sweepAndSelect st1 ctx fuel w0) = (s', .ok n)) :
    0 < minNB ∧ 0 < maxNB ∧ sweepAndSelect st1 ctx fuel w0 = (s', .ok n) := by
  split at h
  case isTrue => simp at h
  case isFalse hcond =>
    push_neg at hcond
    exact ⟨hcond.1, hcond.2, h⟩


/-- Structure of a successful `optimal_binning` run: the summary pass found a
non-degenerate range, the resolved bounds are positive, the sweep completed,
the four candidate lists of the final state are the sweep lists, and the
optimum fields were set from the selection scan (or left untouched when the
scan found nothing). -/
lemma run_ok_shape (st : BinningState) (data : List ℚ) (mi ma : Option ℚ)
    (s' : BinningState) (n : ℕ)
    (h : optimal_binning st data mi ma = (s', .ok n)) :
    ∃ (nx sx min_x max_x minNB maxNB : ℚ) (acc : SweepAcc),
      summarize data = (nx, sx, some min_x, some max_x) ∧
      0 < max_x - min_x ∧ 0 < minNB ∧ 0 < maxNB ∧
      sweepLoop ⟨data, nx, sx / nx, min_x, max_x, minNB, maxNB,
          pow10 (ceilLog10 ((max_x - min_x) / minNB))⟩
        ((4 * (ceilLog10 ((max_x - min_x) / minNB)
            - floorLog10 ((max_x - min_x) / maxNB)) + 2).toNat + 8)
        (pow10 (floorLog10 ((max_x - min_x) / maxNB))) 0 ⟨[], [], [], [], 0⟩
        = (acc, none) ∧
      s'.bin_width_candidate = acc.bwc ∧
      s'.list_criterion = acc.crits ∧
      s'.list_n_bin = acc.nbins ∧
      s'.list_bin_boundary = acc.layouts ∧
      s'.min_n_bin = some minNB ∧ s'.max_n_bin = some maxNB ∧
      n = acc.ncand ∧
      (((scanLowest acc.crits).2 = none ∧
          s'.optimal_criterion = st.optimal_criterion ∧
          s'.optimal_position = st.optimal_position) ∨
        (∃ p, (scanLowest acc.crits).2 = some p ∧
          s'.optimal_criterion = (scanLowest acc.crits).1 ∧
          s'.optimal_position = some p)) := by
  rcases hs : summarize data with ⟨nx, sx, mno, mxo⟩
  unfold optimal_binning at h
  rw [hs] at h
  cases mno with
  | none => simp at h
  | some min_x =>
    cases mxo with
    | none => simp at h
    | some max_x =>
      dsimp only at h
      simp only [ite_self] at h
      split at h
      case isFalse hr => simp at h
      case isTrue hr =>
        obtain ⟨hb1, hb2, h⟩ := stage2_ok _ _ _ _ _ _ _ _ h
        obtain ⟨acc, hswp, f1, f2, f3, f4, f5, f6, f7, f8⟩ :=
          sweepAndSelect_ok _ _ _ _ _ _ h
        exact ⟨nx, sx, min_x, max_x, _, _, acc, rfl, hr, hb1, hb2,
          hswp, f1, f2, f3, f4, by rw [f5], by rw [f6], f7, by simpa using f8⟩

/-- On every path, each layout stored in the sweep lists came out of a
successful `bin_frequency` call on the run's sample, so its frequencies sum
to the sample size. -/
lemma sweep_layout_inv (ctx : SweepCtx) :
    ∀ (fuel : ℕ) (bw : ℚ) (seq : ℕ) (acc out : SweepAcc) (err : Option PyError),
      sweepLoop ctx fuel bw seq acc = (out, err) →
      (∀ L ∈ acc.layouts, (L.map BinRow.freq).sum = (ctx.data.length : ℚ)) →
      ∀ L ∈ out.layouts, (L.map BinRow.freq).sum = (ctx.data.length : ℚ) := by
  intro fuel
  induction fuel with
  | zero =>
    intro bw seq acc out err h hacc
    rw [sweepLoop] at h
    cases h
    exact hacc
  | succ fuel ih =>
    intro bw seq acc out err h hacc
    rw [sweepLoop] at h
    split at h
    case isFalse => cases h; exact hacc
    case isTrue hle =>
      dsimp only at h
      split at h
      case isTrue hg =>
        split at h
        case h_1 e heq => cases h; exact hacc
        case h_2 bin_details heq =>
          refine ih _ _ _ _ _ h ?_
          intro L hL
          rcases List.mem_append.mp hL with hL | hL
          · exact hacc L hL
          · rw [List.mem_singleton] at hL
            subst hL
            exact (bin_frequency_ok_inv _ _ _ heq).1
      case isFalse hg => exact ih _ _ _ _ _ h hacc

/-- Each width step strictly grows the width (×1.25 or ×2 of a positive
width). -/
lemma stepWS_gt (bw : ℚ) (seq : ℕ) (h : 0 < bw) : bw < (stepWS (bw, seq)).1 := by
  unfold stepWS
  dsimp only
  split <;> nlinarith

lemma stepWS_pos (bw : ℚ) (seq : ℕ) (h : 0 < bw) : 0 < (stepWS (bw, seq)).1 := by
  have := stepWS_gt bw seq h
  linarith

/-- Sweep invariant for C9: starting from a positive width bounded below by
`lo`, the recorded widths stay strictly increasing and inside
`[lo, max_bin_width]`. -/
lemma sweep_width_inv (ctx : SweepCtx) :
    ∀ (fuel : ℕ) (bw : ℚ) (seq : ℕ) (acc out : SweepAcc) (err : Option PyError) (lo : ℚ),
      sweepLoop ctx fuel bw seq acc = (out, err) →
      0 < bw → lo ≤ bw →
      (∀ w ∈ acc.bwc, w < bw ∧ lo ≤ w ∧ w ≤ ctx.max_bin_width) →
      List.Pairwise (· < ·) acc.bwc →
      List.Pairwise (· < ·) out.bwc ∧
        ∀ w ∈ out.bwc, lo ≤ w ∧ w ≤ ctx.max_bin_width := by
  intro fuel
  induction fuel with
  | zero =>
    intro bw seq acc out err lo h hbw hlo hacc hpw
    rw [sweepLoop] at h
    cases h
    exact ⟨hpw, fun w hw => ⟨(hacc w hw).2.1, (hacc w hw).2.2⟩⟩
  | succ fuel ih =>
    intro bw seq acc out err lo h hbw hlo hacc hpw
    rw [sweepLoop] at h
    split at h
    case isFalse =>
      cases h
      exact ⟨hpw, fun w hw => ⟨(hacc w hw).2.1, (hacc w hw).2.2⟩⟩
    case isTrue hle =>
      dsimp only at h
      have hgt := stepWS_gt bw seq hbw
      have hpos := stepWS_pos bw seq hbw
      split at h
      case isTrue hg =>
        split at h
        case h_1 e heq =>
          cases h
          exact ⟨hpw, fun w hw => ⟨(hacc w hw).2.1, (hacc w hw).2.2⟩⟩
        case h_2 bin_details heq =>
          refine ih _ _ _ _ _ _ h hpos (le_of_lt (lt_of_le_of_lt hlo hgt)) ?_ ?_
          · intro w hw
            rcases List.mem_append.mp hw with hw | hw
            · obtain ⟨h1, h2, h3⟩ := hacc w hw
              exact ⟨lt_trans h1 hgt, h2, h3⟩
            · rw [List.mem_singleton] at hw
              subst hw
              exact ⟨hgt, hlo, hle⟩
          · rw [List.pairwise_append]
            exact ⟨hpw, List.pairwise_singleton _ _,
              fun a ha b hb => by
                rw [List.mem_singleton] at hb
                subst hb
                exact (hacc a ha).1⟩
      case isFalse hg =>
        refine ih _ _ _ _ _ _ h hpos (le_of_lt (lt_of_le_of_lt hlo hgt)) ?_ hpw
        intro w hw
        obtain ⟨h1, h2, h3⟩ := hacc w hw
        exact ⟨lt_trans h1 hgt, h2, h3⟩

lemma mkLowerBoundary_length (n : ℕ) (low bw : ℚ) (hn : n ≠ 0) :
    (mkLowerBoundary n low bw).length = n := by
  unfold mkLowerBoundary
  rw [if_neg hn, List.length_cons, List.length_map, List.length_range]
  omega

/-- With a non-degenerate range and a positive width, the derived bin count
`n_bin_left + n_bin_right` is at least 1. -/
lemma nbin_pos (mnx mxx middle bw : ℚ) (hr : mnx < mxx) (hbw : 0 < bw) :
    1 ≤ ⌈(middle - mnx) / bw⌉ + ⌈(mxx - middle) / bw⌉ := by
  have h1 : ⌈(middle - mnx) / bw + (mxx - middle) / bw⌉
      ≤ ⌈(middle - mnx) / bw⌉ + ⌈(mxx - middle) / bw⌉ := Int.ceil_add_le _ _
  have h2 : (middle - mnx) / bw + (mxx - middle) / bw = (mxx - mnx) / bw := by
    ring
  have h3 : (0 : ℚ) < (mxx - mnx) / bw := div_pos (by linarith) hbw
  have h4 : 1 ≤ ⌈(mxx - mnx) / bw⌉ := Int.ceil_pos.mpr h3
  rw [h2] at h1
  omega

/-- Appending an aligned pair preserves the pointwise bin-count / row-count
correspondence. -/
lemma append_single_get (l1 : List ℤ) (l2 : List (List BinRow)) (a : ℤ)
    (b : List BinRow) (hlen : l1.length = l2.length)
    (hold : ∀ (i : ℕ) (k : ℤ) (L : List BinRow),
      l1[i]? = some k → l2[i]? = some L → k = (L.length : ℤ))
    (hab : a = (b.length : ℤ)) :
    ∀ (i : ℕ) (k : ℤ) (L : List BinRow),
      (l1 ++ [a])[i]? = some k → (l2 ++ [b])[i]? = some L →
      k = (L.length : ℤ) := by
  intro i k L h1 h2
  rcases lt_or_ge i l1.length with hi | hi
  · rw [List.getElem?_append_left hi] at h1
    rw [List.getElem?_append_left (hlen ▸ hi)] at h2
    exact hold i k L h1 h2
  · rw [List.getElem?_append_right hi] at h1
    rw [List.getElem?_append_right (hlen ▸ hi)] at h2
    rcases Nat.lt_or_ge (i - l1.length) 1 with hj | hj
    · have hj0 : i - l1.length = 0 := by omega
      rw [hj0] at h1
      have hj0' : i - l2.length = 0 := by omega
      rw [hj0'] at h2
      simp at h1 h2
      rw [← h1, ← h2]
      exact hab
    · have : ([a] : List ℤ)[i - l1.length]? = none := by
        apply List.getElem?_eq_none
        simpa using hj
      rw [this] at h1
      exact absurd h1 (by simp)

/-- Sweep invariant for C10: the `n_bin` list and the layout list stay
aligned, with each recorded `n_bin` equal to the row count of the layout
recorded beside it; the criterion list keeps the same length. -/
lemma sweep_nbin_inv (ctx : SweepCtx) (hrng : ctx.mnx < ctx.mxx) :
    ∀ (fuel : ℕ) (bw : ℚ) (seq : ℕ) (acc out : SweepAcc) (err : Option PyError),
      sweepLoop ctx fuel bw seq acc = (out, err) →
      0 < bw →
      acc.nbins.length = acc.layouts.length →
      acc.crits.length = acc.layouts.length →
      (∀ (i : ℕ) (k : ℤ) (L : List BinRow), acc.nbins[i]? = some k →
        acc.layouts[i]? = some L → k = (L.length : ℤ)) →
      out.nbins.length = out.layouts.length ∧
        out.crits.length = out.layouts.length ∧
        ∀ (i : ℕ) (k : ℤ) (L : List BinRow), out.nbins[i]? = some k →
          out.layouts[i]? = some L → k = (L.length : ℤ) := by
  intro fuel
  induction fuel with
  | zero =>
    intro bw seq acc out err h hbw hl1 hl2 hptw
    rw [sweepLoop] at h
    cases h
    exact ⟨hl1, hl2, hptw⟩
  | succ fuel ih =>
    intro bw seq acc out err h hbw hl1 hl2 hptw
    rw [sweepLoop] at h
    split at h
    case isFalse =>
      cases h
      exact ⟨hl1, hl2, hptw⟩
    case isTrue hle =>
      dsimp only at h
      have hpos := stepWS_pos bw seq hbw
      split at h
      case isTrue hg =>
        split at h
        case h_1 e heq =>
          cases h
          exact ⟨hl1, hl2, hptw⟩
        case h_2 bin_details heq =>
          have hnb := nbin_pos ctx.mnx ctx.mxx
            (bw * (roundHalfEven (ctx.meanx / bw) : ℚ)) bw hrng hbw
          have hlen := (bin_frequency_ok_inv _ _ _ heq).2
          rw [mkLowerBoundary_length _ _ _ (by omega)] at hlen
          have hab : (⌈(bw * (roundHalfEven (ctx.meanx / bw) : ℚ) - ctx.mnx) / bw⌉
              + ⌈(ctx.mxx - bw * (roundHalfEven (ctx.meanx / bw) : ℚ)) / bw⌉)
              = (bin_details.length : ℤ) := by
            rw [hlen]
            omega
          refine ih _ _ _ _ _ h hpos ?_ ?_ ?_
          · simp only [List.length_append, List.length_singleton]
            omega
          · simp only [List.length_append, List.length_singleton]
            omega
          · exact append_single_get _ _ _ _ hl1 hptw hab
      case isFalse hg => exact ih _ _ _ _ _ h hpos hl1 hl2 hptw

lemma scanLowestAux_no_improve : ∀ (l : List ℚ) (b : ℚ) (pos : Option ℕ) (i : ℕ),
    (∀ v ∈ l, b ≤ v) → scanLowestAux l (.fin b) pos i = (.fin b, pos) := by
  intro l
  induction l with
  | nil => intro b pos i h; rfl
  | cons v vs ih =>
    intro b pos i h
    have hv : ¬ (v < b) := not_lt.mpr (h v (List.mem_cons_self v vs))
    simp only [scanLowestAux, XQ.ltq, hv, decide_False, Bool.false_eq_true,
      if_false]
    exact ih b pos (i + 1) (fun w hw => h w (List.mem_cons_of_mem v hw))

lemma scanLowestAux_fin_spec : ∀ (l : List ℚ) (b : ℚ) (pos : Option ℕ) (i : ℕ),
    (∃ v ∈ l, v < b) →
    ∃ (k : ℕ) (c : ℚ), scanLowestAux l (.fin b) pos i = (.fin c, some (i + k)) ∧
      l[k]? = some c ∧ c < b ∧
      (∀ (j : ℕ) (cj : ℚ), l[j]? = some cj → c ≤ cj) ∧
      (∀ j < k, ∀ (cj : ℚ), l[j]? = some cj → c < cj) := by
  intro l
  induction l with
  | nil => intro b pos i h; obtain ⟨v, hv, _⟩ := h; simp at hv
  | cons v vs ih =>
    intro b pos i h
    by_cases hv : v < b
    · have hstep : scanLowestAux (v :: vs) (.fin b) pos i
          = scanLowestAux vs (.fin v) (some i) (i + 1) := by
        simp [scanLowestAux, XQ.ltq, hv]
      by_cases hvs : ∃ w ∈ vs, w < v
      · obtain ⟨k', c, hres, hget, hcb, hle, hlt⟩ := ih v (some i) (i + 1) hvs
        refine ⟨k' + 1, c, ?_, ?_, lt_trans hcb hv, ?_, ?_⟩
        · rw [hstep, hres]
          congr 2
          omega
        · simpa using hget
        · intro j cj hj
          cases j with
          | zero =>
            simp at hj
            subst hj
            exact le_of_lt hcb
          | succ j => exact hle j cj (by simpa using hj)
        · intro j hjk cj hj
          cases j with
          | zero =>
            simp at hj
            subst hj
            exact hcb
          | succ j => exact hlt j (by omega) cj (by simpa using hj)
      · push_neg at hvs
        refine ⟨0, v, ?_, by simp, hv, ?_, by omega⟩
        · rw [hstep, scanLowestAux_no_improve vs v (some i) (i + 1) hvs]
          simp
        · intro j cj hj
          cases j with
          | zero => simp at hj; subst hj; exact le_refl v
          | succ j =>
            have : cj ∈ vs := List.getElem?_mem (by simpa using hj)
            exact hvs cj this
    · have hstep : scanLowestAux (v :: vs) (.fin b) pos i
          = scanLowestAux vs (.fin b) pos (i + 1) := by
        simp [scanLowestAux, XQ.ltq, hv]
      have hb : b ≤ v := not_lt.mp hv
      have hvs : ∃ w ∈ vs, w < b := by
        obtain ⟨w, hw, hwb⟩ := h
        rcases List.mem_cons.mp hw with rfl | hw'
        · exact absurd hwb hv
        · exact ⟨w, hw', hwb⟩
      obtain ⟨k', c, hres, hget, hcb, hle, hlt⟩ := ih b pos (i + 1) hvs
      refine ⟨k' + 1, c, ?_, ?_, hcb, ?_, ?_⟩
      · rw [hstep, hres]
        congr 2
        omega
      · simpa using hget
      · intro j cj hj
        cases j with
        | zero =>
          simp at hj
          subst hj
          exact le_of_lt (lt_of_lt_of_le hcb hb)
        | succ j => exact hle j cj (by simpa using hj)
      · intro j hjk cj hj
        cases j with
        | zero =>
          simp at hj
          subst hj
          exact lt_of_lt_of_le hcb hb
        | succ j => exact hlt j (by omega) cj (by simpa using hj)

/-- The selection scan of lines 207-219 picks the first position achieving
the strict minimum of the criterion list. -/
lemma scanLowest_spec (l : List ℚ) (hl : l ≠ []) :
    ∃ (k : ℕ) (c : ℚ), scanLowest l = (.fin c, some k) ∧ l[k]? = some c ∧
      (∀ (j : ℕ) (cj : ℚ), l[j]? = some cj → c ≤ cj) ∧
      (∀ j < k, ∀ (cj : ℚ), l[j]? = some cj → c < cj) := by
  cases l with
  | nil => exact absurd rfl hl
  | cons v vs =>
    have hstep : scanLowest (v :: vs) = scanLowestAux vs (.fin v) (some 0) 1 := by
      simp [scanLowest, scanLowestAux, XQ.ltq]
    by_cases hvs : ∃ w ∈ vs, w < v
    · obtain ⟨k', c, hres, hget, hcb, hle, hlt⟩ :=
        scanLowestAux_fin_spec vs v (some 0) 1 hvs
      refine ⟨k' + 1, c, ?_, by simpa using hget, ?_, ?_⟩
      · rw [hstep, hres]
        congr 2
        omega
      · intro j cj hj
        cases j with
        | zero => simp at hj; subst hj; exact le_of_lt hcb
        | succ j => exact hle j cj (by simpa using hj)
      · intro j hjk cj hj
        cases j with
        | zero => simp at hj; subst hj; exact hcb
        | succ j => exact hlt j (by omega) cj (by simpa using hj)
    · push_neg at hvs
      refine ⟨0, v, ?_, by simp, ?_, by omega⟩
      · rw [hstep, scanLowestAux_no_improve vs v (some 0) 1 hvs]
      · intro j cj hj
        cases j with
        | zero => simp at hj; subst hj; exact le_refl v
        | succ j =>
          have : cj ∈ vs := List.getElem?_mem (by simpa using hj)
          exact hvs cj this


deriving instance DecidableEq for Except

attribute [local semireducible] Rat.add Rat.mul Rat.inv Rat.sub Rat.ofScientific

/-- Claim C1: with `data = [0, 10]`, `min_n_bin = 10`, `max_n_bin = 2`, the
run completes without an error but the bounds are NOT swapped: the state
keeps `min_n_bin = 10`, `max_n_bin = 2` (line 145 writes the saved maximum
back into `max_n_bin` instead of into `min_n_bin`, so the swap of lines
142-145 is a no-op), the filter `min_n_bin <= n_bin <= max_n_bin` is
unsatisfiable, and zero candidates are recorded — whereas the claim
(matching the visible intent of the save/assign/assign swap pattern)
expects effective bounds `min = 2`, `max = 10`. -/
theorem C1_swap_is_noop :
    (optimal_binning initState [0, 10] (some 10) (some 2)).1.min_n_bin = some 10 ∧
    (optimal_binning initState [0, 10] (some 10) (some 2)).1.max_n_bin = some 2 ∧
    (optimal_binning initState [0, 10] (some 10) (some 2)).2 = .ok 0 ∧
    (optimal_binning initState [0, 10] (some 10) (some 2)).1.bin_width_candidate = [] ∧
    ¬ (optimal_binning initState [0, 10] (some 10) (some 2)).1.min_n_bin = some 2 := by
  refine ⟨by decide, by decide, by decide, by decide, by decide⟩

/-- First run for the C2 counterexample: default-style bounds, 4 candidates,
optimum at position 3. -/
def c2Run1 : BinningState × Except PyError ℕ :=
  optimal_binning initState [0, 10] (some 2) (some 10)

/-- Second run for the C2 counterexample, on the state left by the first. -/
def c2Run2 : BinningState × Except PyError ℕ :=
  optimal_binning c2Run1.1 [0, 10] (some 10) (some 2)

/-- Claim C2, counterexample: after a successful run (4 candidates recorded,
optimum at position 3), a second run on the same instance that records zero
valid candidates leaves the stale `optimal_position = 3` pointing into the
now-cleared candidate lists, and all three accessors raise `IndexError`
instead of returning the "none"/0/"none" sentinels the claim promises. -/
theorem C2_counterexample :
    c2Run1.2 = .ok 4 ∧
    c2Run1.1.optimal_position = some 3 ∧
    c2Run2.2 = .ok 0 ∧
    c2Run2.1.optimal_position = some 3 ∧
    c2Run2.1.list_bin_boundary = [] ∧
    get_optimal_boundary c2Run2.1 = .error .indexError ∧
    get_optimal_nbin c2Run2.1 = .error .indexError ∧
    get_optimal_width c2Run2.1 = .error .indexError := by
  refine ⟨by decide, by decide, by decide, by decide, by decide, by decide,
    by decide, by decide⟩

/-- Claim C2 (amended): the accessors return the "none"/0/"none" sentinels
exactly in the states whose `optimal_position` is the `None` sentinel — the
sweep was never run, or no run on this instance ever set an optimum.  After
an earlier successful run, a later run that records zero candidates leaves
the stale index in `optimal_position` while the candidate lists are empty,
and the accessors raise `IndexError` instead (see `C2_counterexample`). -/
theorem C2_none_sentinels (st : BinningState) (h : st.optimal_position = none) :
    get_optimal_boundary st = .ok none ∧
    get_optimal_nbin st = .ok 0 ∧
    get_optimal_width st = .ok none := by
  unfold get_optimal_boundary get_optimal_nbin get_optimal_width
  rw [h]
  exact ⟨rfl, rfl, rfl⟩

/-- Witness for C2: the fresh instance satisfies the amended claim. -/
theorem C2_none_sentinels_witness :
    initState.optimal_position = none ∧
    (get_optimal_boundary initState = .ok none ∧
      get_optimal_nbin initState = .ok 0 ∧
      get_optimal_width initState = .ok none) :=
  ⟨rfl, C2_none_sentinels initState rfl⟩

/-- Claim C5, counterexample: two advance steps from a cycle start (step
counter 0) multiply the width by 2 and then by 1.25, giving ×2.5 — not the
×4 of the claim's "×1, ×2, ×4, ×5, ×10" sequence. -/
theorem C5_counterexample :
    (stepWS (stepWS ((1 : ℚ), 0))).1 = 5 / 2 ∧
    ¬ (stepWS (stepWS ((1 : ℚ), 0))).1 = 4 := by
  refine ⟨by decide, by decide⟩

/-- Claim C5 (amended): starting from a cycle start (step counter 0), the
sweep's advance function multiplies by 2.0, then 1.25, then 2.0, then 2.0,
with the counter cycling 0→1→2→3→0, so the widths within each 4-step cycle
are ×1, ×2, ×2.5, ×5, ×10 relative to the cycle start — the "nice number"
multipliers 1, 2, 2.5, 5 per decade. -/
theorem C5_width_cycle (w : ℚ) :
    stepWS (w, 0) = (2 * w, 1) ∧
    stepWS (2 * w, 1) = (5 / 2 * w, 2) ∧
    stepWS (5 / 2 * w, 2) = (5 * w, 3) ∧
    stepWS (5 * w, 3) = (10 * w, 0) := by
  refine ⟨?_, ?_, ?_, ?_⟩ <;>
    · simp only [stepWS]
      norm_num
      try ring_nf
      try norm_num

/-- Claim C4 (amended): for every non-empty sample and every boundaries
sequence of length at least 2, `bin_frequency` succeeds and its per-bin
frequencies sum exactly to the sample size; consequently every layout
recorded by a sweep has frequencies summing to the sample size.  (A
length-1 boundaries sequence instead raises `AttributeError` through the
`numpy.len` slip of line 80 — see `C4_counterexample`.) -/
theorem C4_sum_eq_size :
    (∀ (data : List ℚ) (blb : List XQ), data ≠ [] → 2 ≤ blb.length →
      ∃ rows, bin_frequency data blb = .ok rows ∧
        (rows.map BinRow.freq).sum = (data.length : ℚ)) ∧
    (∀ (st : BinningState) (data : List ℚ) (mi ma : Option ℚ)
        (s' : BinningState) (n : ℕ),
      optimal_binning st data mi ma = (s', .ok n) →
      ∀ L ∈ s'.list_bin_boundary, (L.map BinRow.freq).sum = (data.length : ℚ)) := by
  constructor
  · intro data blb _ h2
    obtain ⟨rows, hok, hsum, _⟩ := bin_frequency_ok data blb h2
    exact ⟨rows, hok, hsum⟩
  · intro st data mi ma s' n h L hL
    obtain ⟨nx, sx, min_x, max_x, minNB, maxNB, acc, hs, hr, hmn, hmx, hswp,
      f1, f2, f3, f4, f5, f6, f7, f8⟩ := run_ok_shape st data mi ma s' n h
    have := sweep_layout_inv _ _ _ _ _ _ _ hswp (by intro L hL; simp at hL)
    rw [f4] at hL
    exact this L hL

/-- Witness for C4 at a concrete sample, boundary list, and run. -/
theorem C4_sum_eq_size_witness :
    (∃ rows, bin_frequency [(0 : ℚ), 10] [XQ.ninf, XQ.fin 5] = .ok rows ∧
      (rows.map BinRow.freq).sum = (([(0 : ℚ), 10] : List ℚ).length : ℚ)) ∧
    (∀ L ∈ (optimal_binning initState [0, 10] (some 2) (some 10)).1.list_bin_boundary,
      (L.map BinRow.freq).sum = (([(0 : ℚ), 10] : List ℚ).length : ℚ)) :=
  ⟨C4_sum_eq_size.1 [0, 10] [XQ.ninf, XQ.fin 5] (by decide) (by decide),
   C4_sum_eq_size.2 initState [0, 10] (some 2) (some 10) _ 4 (by decide)⟩

/-- Claim C6: after every successful run, if at least one candidate was
recorded then `optimal_position` / `optimal_criterion` name the recorded
candidate with the strictly smallest criterion, scanning the criterion list
in the order produced with the first occurrence winning ties (strict `<`);
if zero candidates were recorded, the optimum fields are not touched. -/
theorem C6_selection (st : BinningState) (data : List ℚ) (mi ma : Option ℚ)
    (s' : BinningState) (n : ℕ)
    (h : optimal_binning st data mi ma = (s', .ok n)) :
    (s'.list_criterion = [] →
      s'.optimal_position = st.optimal_position ∧
      s'.optimal_criterion = st.optimal_criterion) ∧
    (s'.list_criterion ≠ [] →
      ∃ (i : ℕ) (c : ℚ), s'.optimal_position = some i ∧
        s'.optimal_criterion = .fin c ∧
        s'.list_criterion[i]? = some c ∧
        (∀ (j : ℕ) (cj : ℚ), s'.list_criterion[j]? = some cj → c ≤ cj) ∧
        (∀ j < i, ∀ (cj : ℚ), s'.list_criterion[j]? = some cj → c < cj)) := by
  obtain ⟨nx, sx, min_x, max_x, minNB, maxNB, acc, hs, hr, hmn, hmx, hswp,
    f1, f2, f3, f4, f5, f6, f7, f8⟩ := run_ok_shape st data mi ma s' n h
  constructor
  · intro hnil
    rw [f2] at hnil
    rcases f8 with ⟨_, hcrit, hpos⟩ | ⟨p, hp, _, _⟩
    · exact ⟨hpos, hcrit⟩
    · rw [hnil] at hp
      simp [scanLowest, scanLowestAux] at hp
  · intro hne
    rw [f2] at hne
    obtain ⟨k, c, hres, hget, hle, hlt⟩ := scanLowest_spec acc.crits hne
    rcases f8 with ⟨hnone, _, _⟩ | ⟨p, hp, hcrit, hpos⟩
    · rw [hres] at hnone
      simp at hnone
    · rw [hres] at hp hcrit
      simp at hp
      subst hp
      refine ⟨k, c, hpos, by simpa using hcrit, ?_, ?_, ?_⟩
      · rw [f2]; exact hget
      · intro j cj hj
        rw [f2] at hj
        exact hle j cj hj
      · intro j hjk cj hj
        rw [f2] at hj
        exact hlt j hjk cj hj

/-- Witness for C6 at a concrete successful run (4 candidates). -/
theorem C6_selection_witness :
    ((optimal_binning initState [0, 10] (some 2) (some 10)).1.list_criterion = [] →
      (optimal_binning initState [0, 10] (some 2) (some 10)).1.optimal_position
        = initState.optimal_position ∧
      (optimal_binning initState [0, 10] (some 2) (some 10)).1.optimal_criterion
        = initState.optimal_criterion) ∧
    ((optimal_binning initState [0, 10] (some 2) (some 10)).1.list_criterion ≠ [] →
      ∃ (i : ℕ) (c : ℚ),
        (optimal_binning initState [0, 10] (some 2) (some 10)).1.optimal_position
          = some i ∧
        (optimal_binning initState [0, 10] (some 2) (some 10)).1.optimal_criterion
          = .fin c ∧
        (optimal_binning initState [0, 10] (some 2) (some 10)).1.list_criterion[i]?
          = some c ∧
        (∀ (j : ℕ) (cj : ℚ),
          (optimal_binning initState [0, 10] (some 2) (some 10)).1.list_criterion[j]?
            = some cj → c ≤ cj) ∧
        (∀ j < i, ∀ (cj : ℚ),
          (optimal_binning initState [0, 10] (some 2) (some 10)).1.list_criterion[j]?
            = some cj → c < cj)) :=
  C6_selection initState [0, 10] (some 2) (some 10) _ 4 (by decide)

/-- Claim C9: for every successful run, the recorded candidate widths are
strictly increasing in the order produced and each lies between the derived
`min_bin_width = 10^floor(log10(range/max_n_bin))` and
`max_bin_width = 10^ceil(log10(range/min_n_bin))`; and the sweep loop stops,
recording nothing further, exactly once the width exceeds `max_bin_width`. -/
theorem C9_widths (st : BinningState) (data : List ℚ) (mi ma : Option ℚ)
    (s' : BinningState) (n : ℕ)
    (h : optimal_binning st data mi ma = (s', .ok n)) :
    List.Pairwise (· < ·) s'.bin_width_candidate ∧
    (∃ (nx sx min_x max_x minNB maxNB : ℚ),
      summarize data = (nx, sx, some min_x, some max_x) ∧
      s'.min_n_bin = some minNB ∧ s'.max_n_bin = some maxNB ∧
      ∀ w ∈ s'.bin_width_candidate,
        pow10 (floorLog10 ((max_x - min_x) / maxNB)) ≤ w ∧
        w ≤ pow10 (ceilLog10 ((max_x - min_x) / minNB))) ∧
    (∀ (ctx : SweepCtx) (fuel : ℕ) (bw : ℚ) (seq : ℕ) (acc : SweepAcc),
      ctx.max_bin_width < bw →
      sweepLoop ctx (fuel + 1) bw seq acc = (acc, none)) := by
  obtain ⟨nx, sx, min_x, max_x, minNB, maxNB, acc, hs, hr, hmn, hmx, hswp,
    f1, f2, f3, f4, f5, f6, f7, f8⟩ := run_ok_shape st data mi ma s' n h
  have hw0 : (0 : ℚ) < pow10 (floorLog10 ((max_x - min_x) / maxNB)) :=
    zpow_pos (by norm_num) _
  obtain ⟨hpw, hbound⟩ := sweep_width_inv _ _ _ _ _ _ _
    (pow10 (floorLog10 ((max_x - min_x) / maxNB))) hswp hw0 le_rfl
    (by intro w hw; simp at hw) (by simp)
  refine ⟨?_, ⟨nx, sx, min_x, max_x, minNB, maxNB, hs, f5, f6, ?_⟩, ?_⟩
  · rw [f1]; exact hpw
  · intro w hw
    rw [f1] at hw
    exact hbound w hw
  · intro ctx fuel bw seq acc hlt
    rw [sweepLoop, if_neg (not_le.mpr hlt)]

/-- The final state of a reference successful run, used by the witnesses. -/
def c9Run : BinningState := (optimal_binning initState [0, 10] (some 2) (some 10)).1

/-- Witness for C9 at a concrete successful run. -/
theorem C9_widths_witness :
    List.Pairwise (· < ·) c9Run.bin_width_candidate ∧
    (∃ (nx sx min_x max_x minNB maxNB : ℚ),
      summarize [(0 : ℚ), 10] = (nx, sx, some min_x, some max_x) ∧
      c9Run.min_n_bin = some minNB ∧ c9Run.max_n_bin = some maxNB ∧
      ∀ w ∈ c9Run.bin_width_candidate,
        pow10 (floorLog10 ((max_x - min_x) / maxNB)) ≤ w ∧
        w ≤ pow10 (ceilLog10 ((max_x - min_x) / minNB))) ∧
    (∀ (ctx : SweepCtx) (fuel : ℕ) (bw : ℚ) (seq : ℕ) (acc : SweepAcc),
      ctx.max_bin_width < bw →
      sweepLoop ctx (fuel + 1) bw seq acc = (acc, none)) :=
  C9_widths initState [0, 10] (some 2) (some 10) c9Run 4 (by decide)

/-- Claim C10: for every successful run, each recorded bin count equals the
number of (lower, upper, frequency) rows of the layout recorded at the same
position; consequently whenever `get_optimal_boundary` returns a layout,
`get_optimal_nbin` returns exactly its row count. -/
theorem C10_nbin_rows (st : BinningState) (data : List ℚ) (mi ma : Option ℚ)
    (s' : BinningState) (n : ℕ)
    (h : optimal_binning st data mi ma = (s', .ok n)) :
    (∀ (i : ℕ) (k : ℤ) (L : List BinRow),
      s'.list_n_bin[i]? = some k → s'.list_bin_boundary[i]? = some L →
      k = (L.length : ℤ)) ∧
    (∀ L : List BinRow, get_optimal_boundary s' = .ok (some L) →
      get_optimal_nbin s' = .ok (L.length : ℤ)) := by
  obtain ⟨nx, sx, min_x, max_x, minNB, maxNB, acc, hs, hr, hmn, hmx, hswp,
    f1, f2, f3, f4, f5, f6, f7, f8⟩ := run_ok_shape st data mi ma s' n h
  have hw0 : (0 : ℚ) < pow10 (floorLog10 ((max_x - min_x) / maxNB)) :=
    zpow_pos (by norm_num) _
  obtain ⟨hl1, hl2, hptw⟩ := sweep_nbin_inv _ (by dsimp only; linarith) _ _ _ _ _ _
    hswp hw0 (by simp) (by simp) (by intro i k L h1 h2; simp at h1)
  have hmain : ∀ (i : ℕ) (k : ℤ) (L : List BinRow),
      s'.list_n_bin[i]? = some k → s'.list_bin_boundary[i]? = some L →
      k = (L.length : ℤ) := by
    intro i k L h1 h2
    rw [f3] at h1
    rw [f4] at h2
    exact hptw i k L h1 h2
  refine ⟨hmain, ?_⟩
  intro L hL
  unfold get_optimal_boundary at hL
  cases hpos : s'.optimal_position with
  | none => rw [hpos] at hL; simp at hL
  | some p =>
    rw [hpos] at hL
    dsimp only at hL
    cases hget : s'.list_bin_boundary[p]? with
    | none => rw [hget] at hL; simp at hL
    | some b =>
      rw [hget] at hL
      dsimp only at hL
      injection hL with hL
      injection hL with hL
      subst hL
      have hplt : p < acc.layouts.length := by
        rw [f4] at hget
        exact (List.getElem?_eq_some.mp hget).1
      have hp2 : p < s'.list_n_bin.length := by
        rw [f3]
        omega
      obtain ⟨k0, hk⟩ : ∃ k0, s'.list_n_bin[p]? = some k0 :=
        ⟨_, List.getElem?_eq_getElem hp2⟩
      unfold get_optimal_nbin
      rw [hpos]
      dsimp only
      rw [hk]
      dsimp only
      rw [hmain p _ b hk hget]

/-- The final state of a reference successful run, used by the C10 witness. -/
def c10Run : BinningState := (optimal_binning initState [0, 10] (some 2) (some 10)).1

/-- Witness for C10 at a concrete successful run. -/
theorem C10_nbin_rows_witness :
    (∀ (i : ℕ) (k : ℤ) (L : List BinRow),
      c10Run.list_n_bin[i]? = some k → c10Run.list_bin_boundary[i]? = some L →
      k = (L.length : ℤ)) ∧
    (∀ L : List BinRow, get_optimal_boundary c10Run = .ok (some L) →
      get_optimal_nbin c10Run = .ok (L.length : ℤ)) :=
  C10_nbin_rows initState [0, 10] (some 2) (some 10) c10Run 4 (by decide)

/-- The sweep can only fail with `attributeError`, `indexError`, or (as the
embedding's artifact) `fuelExhausted`. -/
lemma sweep_err (ctx : SweepCtx) :
    ∀ (fuel : ℕ) (bw : ℚ) (seq : ℕ) (acc out : SweepAcc) (e : PyError),
      sweepLoop ctx fuel bw seq acc = (out, some e) →
      e = .attributeError ∨ e = .indexError ∨ e = .fuelExhausted := by
  intro fuel
  induction fuel with
  | zero =>
    intro bw seq acc out e h
    rw [sweepLoop] at h
    injection h with h1 h2
    injection h2 with h2
    subst h2
    right; right; rfl
  | succ fuel ih =>
    intro bw seq acc out e h
    rw [sweepLoop] at h
    split at h
    case isFalse => simp at h
    case isTrue hle =>
      dsimp only at h
      split at h
      case isTrue hg =>
        split at h
        case h_1 e' heq =>
          have : e' = PyError.indexError ∨ e' = PyError.attributeError := by
            unfold bin_frequency at heq
            dsimp only at heq
            split at heq
            · left
              injection heq with heq
              exact heq.symm
            · split at heq
              · simp at heq
              · right
                injection heq with heq
                exact heq.symm
          injection h with h1 h2
          injection h2 with h2
          subst h2
          rcases this with rfl | rfl
          · right; left; rfl
          · left; rfl
        case h_2 bin_details heq => exact ih _ _ _ _ _ h
      case isFalse hg => exact ih _ _ _ _ _ h
  
/-- The summary fold keeps the min accumulator at or below the max
accumulator, and both are `some` exactly once an element was seen. -/
lemma summarize_fold_inv (data : List ℚ) :
    ∀ (acc : ℚ × ℚ × Option ℚ × Option ℚ),
      ((acc.2.2.1 = none ∧ acc.2.2.2 = none) ∨
        (∃ a b, acc.2.2.1 = some a ∧ acc.2.2.2 = some b ∧ a ≤ b)) →
      let out := data.foldl
        (fun acc u =>
          (acc.1 + 1, acc.2.1 + u,
            some (match acc.2.2.1 with
              | none => u
              | some a => if u < a then u else a),
            some (match acc.2.2.2 with
              | none => u
              | some b => if u > b then u else b)))
        acc
      (data = [] ∧ out = acc) ∨
        (∃ a b, out.2.2.1 = some a ∧ out.2.2.2 = some b ∧ a ≤ b) := by
  induction data with
  | nil => intro acc hacc; exact Or.inl ⟨rfl, rfl⟩
  | cons d ds ih =>
    intro acc hacc
    have hstep : ∃ a b,
        (some (match acc.2.2.1 with
          | none => d
          | some a => if d < a then d else a) : Option ℚ) = some a ∧
        (some (match acc.2.2.2 with
          | none => d
          | some b => if d > b then d else b) : Option ℚ) = some b ∧ a ≤ b := by
      rcases hacc with ⟨h1, h2⟩ | ⟨a, b, h1, h2, hab⟩
      · rw [h1, h2]
        exact ⟨d, d, rfl, rfl, le_refl d⟩
      · rw [h1, h2]
        dsimp only
        by_cases hda : d < a
        · by_cases hdb : d > b
          · exact ⟨d, d, by rw [if_pos hda], by rw [if_pos hdb], le_refl d⟩
          · exact ⟨d, b, by rw [if_pos hda], by rw [if_neg hdb],
              le_trans (le_of_lt hda) hab⟩
        · by_cases hdb : d > b
          · exact ⟨a, d, by rw [if_neg hda], by rw [if_pos hdb],
              le_trans hab (le_of_lt hdb)⟩
          · exact ⟨a, b, by rw [if_neg hda], by rw [if_neg hdb], hab⟩
    simp only [List.foldl_cons]
    rcases ih (acc.1 + 1, acc.2.1 + d,
        some (match acc.2.2.1 with
          | none => d
          | some a => if d < a then d else a),
        some (match acc.2.2.2 with
          | none => d
          | some b => if d > b then d else b))
      (Or.inr (by simpa using hstep)) with ⟨hnil, hout⟩ | hsome
    · subst hnil
      right
      simpa using hstep
    · right
      exact hsome

lemma sweepAndSelect_err (st1 : BinningState) (ctx : SweepCtx) (fuel : ℕ)
    (w0 : ℚ) (e : PyError)
    (h : (sweepAndSelect st1 ctx fuel w0).2 = .error e) :
    e = .attributeError ∨ e = .indexError ∨ e = .fuelExhausted := by
  unfold sweepAndSelect at h
  generalize hswp : sweepLoop ctx fuel w0 0 ⟨[], [], [], [], 0⟩ = swp at h
  obtain ⟨acc, err⟩ := swp
  dsimp only at h
  cases err with
  | some e' =>
    dsimp only at h
    injection h with h
    subst h
    exact sweep_err ctx fuel w0 0 ⟨[], [], [], [], 0⟩ acc e' hswp
  | none =>
    rcases hscan : (scanLowest acc.crits).2 with _ | p <;>
      rw [hscan] at h <;> dsimp only at h <;> simp at h

lemma summarize_nonempty (data : List ℚ) (hne : data ≠ []) :
    ∃ nx sx a b, summarize data = (nx, sx, some a, some b) ∧ a ≤ b := by
  have hinv := summarize_fold_inv data (0, 0, none, none) (Or.inl ⟨rfl, rfl⟩)
  dsimp only at hinv
  rcases hinv with ⟨hnil, _⟩ | ⟨a, b, h1, h2, hab⟩
  · exact absurd hnil hne
  · rcases hsum : summarize data with ⟨nx, sx, mno, mxo⟩
    rw [summarize] at hsum
    rw [hsum] at h1 h2
    dsimp only at h1 h2
    subst h1 h2
    exact ⟨nx, sx, a, b, rfl, hab⟩

/-- Claim C7: `EmptyInputError` (the line-129 ValueError) is raised if and
only if the sample is empty, and `DegenerateRangeError` (the line-221
ValueError) is raised if and only if the sample is non-empty with
`max == min`.  The claim's final part — no error on any non-empty
non-degenerate sample with valid bounds — fails: with `data = [0, 1]` and
the docstring-valid bounds `min_n_bin = 1 < max_n_bin = 2`, the width-1
candidate has a single bin, and `bin_frequency` raises `AttributeError`
through the `numpy.len` slip of line 80 (claim right, code wrong). -/
theorem C7_error_conditions :
    (∀ (st : BinningState) (data : List ℚ) (mi ma : Option ℚ),
      (optimal_binning st data mi ma).2 = .error .valueErrorEmpty ↔ data = []) ∧
    (∀ (st : BinningState) (data : List ℚ) (mi ma : Option ℚ),
      (optimal_binning st data mi ma).2 = .error .valueErrorDegenerate ↔
        (∃ nx sx m, summarize data = (nx, sx, some m, some m))) ∧
    (optimal_binning initState [0, 1] (some 1) (some 2)).2
      = .error .attributeError := by
  refine ⟨?_, ?_, by decide⟩
  · intro st data mi ma
    constructor
    · intro h
      by_contra hne
      obtain ⟨nx, sx, a, b, hsum, hab⟩ := summarize_nonempty data hne
      unfold optimal_binning at h
      rw [hsum] at h
      dsimp only at h
      simp only [ite_self] at h
      split at h
      next hr =>
        split at h
        next hb => simp at h
        next hb =>
          rcases sweepAndSelect_err _ _ _ _ _ h with h' | h' | h' <;> simp at h'
      next hr => simp at h
    · intro h
      subst h
      rfl
  · intro st data mi ma
    constructor
    · intro h
      by_cases hne : data = []
      · subst hne
        have hempty : (optimal_binning st [] mi ma).2 = .error .valueErrorEmpty := rfl
        rw [hempty] at h
        simp at h
      · obtain ⟨nx, sx, a, b, hsum, hab⟩ := summarize_nonempty data hne
        unfold optimal_binning at h
        rw [hsum] at h
        dsimp only at h
        simp only [ite_self] at h
        split at h
        next hr =>
          split at h
          next hb => simp at h
          next hb =>
            rcases sweepAndSelect_err _ _ _ _ _ h with h' | h' | h' <;> simp at h'
        next hr =>
          have hba : b = a := le_antisymm (by linarith) hab
          exact ⟨nx, sx, a, by rw [hsum, hba]⟩
    · rintro ⟨nx, sx, m, hsum⟩
      have hne : data ≠ [] := by
        intro hnil
        subst hnil
        have : summarize [] = ((0 : ℚ), (0 : ℚ), (none : Option ℚ), (none : Option ℚ)) := rfl
        rw [this] at hsum
        simp at hsum
      unfold optimal_binning
      rw [hsum]
      dsimp only
      simp only [ite_self]
      rw [if_neg (by norm_num)]

/-- Claim C8, counterexample: a degenerate sample aborts with the
line-221 ValueError, but only AFTER the resolved bounds were stored on the
instance: `min_n_bin` / `max_n_bin` change from `None` to 3 / 7, so not
every observable field is unchanged. -/
theorem C8_counterexample :
    (optimal_binning initState [5, 5] (some 3) (some 7)).2
      = .error .valueErrorDegenerate ∧
    (optimal_binning initState [5, 5] (some 3) (some 7)).1.min_n_bin = some 3 ∧
    (optimal_binning initState [5, 5] (some 3) (some 7)).1.max_n_bin = some 7 ∧
    initState.min_n_bin = none ∧ initState.max_n_bin = none := by
  refine ⟨by decide, by decide, by decide, rfl, rfl⟩

/-- Claim C8 (amended): on `EmptyInputError` the state is completely
unchanged; on `DegenerateRangeError` the error is still detected before any
candidate work (candidate lists and optimum fields unchanged), but the
resolved `min_n_bin` / `max_n_bin` bounds have already been stored on the
instance (lines 131-145 run before the range check). -/
theorem C8_abort_state (st : BinningState) (data : List ℚ) (mi ma : Option ℚ) :
    ((optimal_binning st data mi ma).2 = .error .valueErrorEmpty →
      (optimal_binning st data mi ma).1 = st) ∧
    ((optimal_binning st data mi ma).2 = .error .valueErrorDegenerate →
      (optimal_binning st data mi ma).1.bin_width_candidate = st.bin_width_candidate ∧
      (optimal_binning st data mi ma).1.list_criterion = st.list_criterion ∧
      (optimal_binning st data mi ma).1.list_n_bin = st.list_n_bin ∧
      (optimal_binning st data mi ma).1.list_bin_boundary = st.list_bin_boundary ∧
      (optimal_binning st data mi ma).1.optimal_criterion = st.optimal_criterion ∧
      (optimal_binning st data mi ma).1.optimal_position = st.optimal_position) := by
  by_cases hne : data = []
  · subst hne
    constructor
    · intro _
      rfl
    · intro h
      have he : (optimal_binning st [] mi ma).2 = .error .valueErrorEmpty := rfl
      rw [he] at h
      simp at h
  · obtain ⟨nx, sx, a, b, hsum, hab⟩ := summarize_nonempty data hne
    unfold optimal_binning
    rw [hsum]
    dsimp only
    simp only [ite_self]
    split
    next hr =>
      split
      next hb =>
        constructor <;> · intro h; simp at h
      next hb =>
        constructor <;>
          · intro h
            rcases sweepAndSelect_err _ _ _ _ _ h with h' | h' | h' <;> simp at h'
    next hr =>
      constructor
      · intro h
        simp at h
      · intro _
        exact ⟨rfl, rfl, rfl, rfl, rfl, rfl⟩

/-- Witness for C8 at a concrete degenerate run. -/
theorem C8_abort_state_witness :
    (optimal_binning initState [5, 5] (some 3) (some 7)).1.bin_width_candidate
        = initState.bin_width_candidate ∧
    (optimal_binning initState [5, 5] (some 3) (some 7)).1.list_criterion
        = initState.list_criterion ∧
    (optimal_binning initState [5, 5] (some 3) (some 7)).1.list_n_bin
        = initState.list_n_bin ∧
    (optimal_binning initState [5, 5] (some 3) (some 7)).1.list_bin_boundary
        = initState.list_bin_boundary ∧
    (optimal_binning initState [5, 5] (some 3) (some 7)).1.optimal_criterion
        = initState.optimal_criterion ∧
    (optimal_binning initState [5, 5] (some 3) (some 7)).1.optimal_position
        = initState.optimal_position :=
  (C8_abort_state initState [5, 5] (some 3) (some 7)).2 (by decide)

/-- Witness for C7 at a concrete empty and a concrete degenerate run. -/
theorem C7_error_conditions_witness :
    (optimal_binning initState ([] : List ℚ) none none).2
        = .error .valueErrorEmpty ∧
    (optimal_binning initState [5, 5] (some 2) (some 6)).2
        = .error .valueErrorDegenerate :=
  ⟨(C7_error_conditions.1 initState [] none none).mpr rfl,
   (C7_error_conditions.2.1 initState [5, 5] (some 2) (some 6)).mpr
     ⟨2, 10, 5, by decide⟩⟩
